import Mathlib

/-!
# Verification of the server-side drawing state of
# Real-Time-Collaborative-Drawing-Canvas

Shallow embedding of `src/server/drawing-state.ts` (class `DrawingState`).

Modelling decisions, each matching the observable behaviour of the source:

* `Map<string, RoomState>` together with `getRoomState` (which lazily inserts
  an empty `RoomState` on first access) is modelled as a total function
  `String → RoomState` whose default value is the empty room: every access in
  the source goes through `getRoomState`, so a missing entry is
  observationally identical to an empty one.
* `uuidv4()` is modelled by a global fresh counter `nextId` on the server
  state; the only property the code relies on is that generated ids are
  globally fresh (never equal to any previously generated id).
* `Date.now()` is modelled as an oracle: each call that samples the clock
  takes the sampled value `now : Int` as an explicit argument.
* JS arrays of operations are Lean lists; `push` is `++ [·]`, `pop` removes
  the last element, `[...state.operations]` (a copy) is the list itself.
-/

namespace DrawingCanvas

/-- A point on the canvas (`shared/types.ts`, interface `Point`). -/
structure Point where
  x : Int
  y : Int
deriving DecidableEq, Repr

/-- A drawing stroke record (`shared/types.ts`, interface `DrawingOperation`). -/
structure DrawingOperation where
  id : Nat
  userId : String
  tool : String
  color : String
  strokeWidth : Int
  points : List Point
  timestamp : Int
deriving DecidableEq, Repr

/-- Per-room state (`drawing-state.ts`, interface `RoomState`).
Note the source keeps a single `currentOperation` slot per room, not one per
user. -/
structure RoomState where
  operations : List DrawingOperation
  undoStack : List DrawingOperation
  redoStack : List DrawingOperation
  currentOperation : Option DrawingOperation
deriving DecidableEq, Repr

/-- The empty room, as created by `getRoomState` on first access. -/
def RoomState.empty : RoomState :=
  { operations := [], undoStack := [], redoStack := [], currentOperation := none }

/-- The whole server (`class DrawingState`): the room map plus the fresh-id
counter modelling `uuidv4`. -/
structure ServerState where
  rooms : String → RoomState
  nextId : Nat

/-- Initial server state: `states = new Map()`. -/
def ServerState.init : ServerState :=
  { rooms := fun _ => RoomState.empty, nextId := 0 }

/-- Replace one room's state, leaving every other room unchanged. -/
def ServerState.setRoom (s : ServerState) (roomId : String) (st : RoomState) :
    ServerState :=
  { s with rooms := fun r => if r = roomId then st else s.rooms r }

/-- Advance the fresh-id counter (one `uuidv4()` call was consumed). -/
def ServerState.fresh (s : ServerState) : ServerState :=
  { s with nextId := s.nextId + 1 }

/-- The `data` argument of `startDraw`. -/
structure StartData where
  x : Int
  y : Int
  tool : String
  color : String
  strokeWidth : Int
deriving DecidableEq, Repr

/-- Concrete `startDraw` payload at (0,0), used by concrete scenarios. -/
def dA : StartData :=
  { x := 0, y := 0, tool := "brush", color := "#000000", strokeWidth := 5 }

/-- Concrete `startDraw` payload at (5,5), used by concrete scenarios. -/
def dB : StartData :=
  { x := 5, y := 5, tool := "brush", color := "#000000", strokeWidth := 5 }

/-- `DrawingState.startDraw` (drawing-state.ts lines 28-52): clears the
room's `redoStack`, builds a fresh operation with a fresh id, a single point
and the current wall-clock time, installs it as the room's
`currentOperation`, and returns it.  It never fails and never inspects the
existing `currentOperation`. -/
def startDraw (roomId userId : String) (data : StartData) (now : Int)
    (s : ServerState) : DrawingOperation × ServerState :=
  let st := s.rooms roomId
  let op : DrawingOperation :=
    { id := s.nextId, userId := userId, tool := data.tool, color := data.color,
      strokeWidth := data.strokeWidth, points := [{ x := data.x, y := data.y }],
      timestamp := now }
  (op, (s.setRoom roomId
          { st with redoStack := [], currentOperation := some op }).fresh)

/-- The fallback operation `addPoint` builds when the room has no current
operation owned by the caller (drawing-state.ts lines 63-71). -/
def fallbackOp (userId : String) (x y : Int) (now : Int) (freshId : Nat) :
    DrawingOperation :=
  { id := freshId, userId := userId, tool := "brush", color := "#000000",
    strokeWidth := 5, points := [{ x := x, y := y }], timestamp := now }

/-- `DrawingState.addPoint` (drawing-state.ts lines 54-74): if the room's
`currentOperation` exists and belongs to the caller, appends the point to it;
otherwise creates a fresh default-styled operation holding just this point
and installs it as the room's `currentOperation`. -/
def addPoint (roomId userId : String) (x y : Int) (now : Int)
    (s : ServerState) : DrawingOperation × ServerState :=
  let st := s.rooms roomId
  match st.currentOperation with
  | some cur =>
    if cur.userId = userId then
      let cur' := { cur with points := cur.points ++ [{ x := x, y := y }] }
      (cur', s.setRoom roomId { st with currentOperation := some cur' })
    else
      let op := fallbackOp userId x y now s.nextId
      (op, (s.setRoom roomId { st with currentOperation := some op }).fresh)
  | none =>
    let op := fallbackOp userId x y now s.nextId
    (op, (s.setRoom roomId { st with currentOperation := some op }).fresh)

/-- `DrawingState.endDraw` (drawing-state.ts lines 76-87): if the room's
`currentOperation` exists and belongs to the caller, pushes it onto
`operations`, clears the slot and returns it; otherwise returns `null` and
changes nothing. -/
def endDraw (roomId userId : String) (s : ServerState) :
    Option DrawingOperation × ServerState :=
  let st := s.rooms roomId
  match st.currentOperation with
  | some cur =>
    if cur.userId = userId then
      (some cur, s.setRoom roomId
        { st with operations := st.operations ++ [cur], currentOperation := none })
    else (none, s)
  | none => (none, s)

/-- `DrawingState.undo` (drawing-state.ts lines 89-99): pops the last
committed operation (if any) and pushes it onto `undoStack`. -/
def undo (roomId : String) (s : ServerState) :
    Option DrawingOperation × ServerState :=
  let st := s.rooms roomId
  match st.operations.getLast? with
  | none => (none, s)
  | some op =>
    (some op, s.setRoom roomId
      { st with operations := st.operations.dropLast,
                undoStack := st.undoStack ++ [op] })

/-- `DrawingState.redo` (drawing-state.ts lines 101-111): pops the last
element of `undoStack` (if any) and pushes it back onto `operations`. -/
def redo (roomId : String) (s : ServerState) :
    Option DrawingOperation × ServerState :=
  let st := s.rooms roomId
  match st.undoStack.getLast? with
  | none => (none, s)
  | some op =>
    (some op, s.setRoom roomId
      { st with undoStack := st.undoStack.dropLast,
                operations := st.operations ++ [op] })

/-- `DrawingState.clear` (drawing-state.ts lines 113-119): resets the room. -/
def clear (roomId : String) (s : ServerState) : ServerState :=
  s.setRoom roomId RoomState.empty

/-- `DrawingState.getState` (drawing-state.ts lines 121-124): a copy of the
room's committed operations. -/
def getState (roomId : String) (s : ServerState) : List DrawingOperation :=
  (s.rooms roomId).operations

/-! ## Trace semantics

A command is one public mutating call against the server, carrying the
wall-clock sample for the calls that read `Date.now()`. -/

/-- One call against the `DrawingState` instance. -/
inductive Cmd where
  | startDraw (roomId userId : String) (data : StartData) (now : Int)
  | addPoint (roomId userId : String) (x y : Int) (now : Int)
  | endDraw (roomId userId : String)
  | undo (roomId : String)
  | redo (roomId : String)
  | clear (roomId : String)
deriving DecidableEq, Repr

/-- One step of execution, instrumented with the ghost list of ids returned
by successful `endDraw` calls (the ids that were ever committed). -/
def stepG (p : ServerState × List Nat) (c : Cmd) : ServerState × List Nat :=
  match c with
  | .startDraw r u d now => ((startDraw r u d now p.1).2, p.2)
  | .addPoint r u x y now => ((addPoint r u x y now p.1).2, p.2)
  | .endDraw r u =>
    match endDraw r u p.1 with
    | (some op, s') => (s', p.2 ++ [op.id])
    | (none, s') => (s', p.2)
  | .undo r => ((undo r p.1).2, p.2)
  | .redo r => ((redo r p.1).2, p.2)
  | .clear r => (clear r p.1, p.2)

/-- Run a trace from the initial server state, with the committed-id ghost. -/
def runG (trace : List Cmd) : ServerState × List Nat :=
  trace.foldl stepG (ServerState.init, [])

/-- Run a trace from the initial server state. -/
def run (trace : List Cmd) : ServerState :=
  (runG trace).1

/-- Reachability invariant tying a server state to the ghost list of ids
committed by successful `endDraw` calls: every operation in a committed log
or undo stack was committed at some point; an in-progress operation was
never committed; ids are globally fresh (bounded by the generator counter,
and no two rooms' in-progress operations share an id). -/
structure Inv (s : ServerState) (ghost : List Nat) : Prop where
  ghost_lt : ∀ i ∈ ghost, i < s.nextId
  ops_ghost : ∀ r, ∀ op ∈ (s.rooms r).operations, op.id ∈ ghost
  undo_ghost : ∀ r, ∀ op ∈ (s.rooms r).undoStack, op.id ∈ ghost
  cur_lt : ∀ r cur, (s.rooms r).currentOperation = some cur → cur.id < s.nextId
  cur_ghost : ∀ r cur, (s.rooms r).currentOperation = some cur → cur.id ∉ ghost
  cur_inj : ∀ r1 r2 c1 c2, (s.rooms r1).currentOperation = some c1 →
    (s.rooms r2).currentOperation = some c2 → c1.id = c2.id → r1 = r2

/-! ## Claim theorems -/

/-- Evaluating the room map of `setRoom`. -/
theorem rooms_setRoom (s : ServerState) (roomId : String) (st : RoomState)
    (r : String) :
    (s.setRoom roomId st).rooms r = if r = roomId then st else s.rooms r := rfl

/-- `setRoom` leaves the id generator alone. -/
theorem nextId_setRoom (s : ServerState) (roomId : String) (st : RoomState) :
    (s.setRoom roomId st).nextId = s.nextId := rfl

/-- `fresh` leaves the room map alone. -/
theorem rooms_fresh (s : ServerState) : s.fresh.rooms = s.rooms := rfl

/-- `fresh` bumps the id generator. -/
theorem nextId_fresh (s : ServerState) : s.fresh.nextId = s.nextId + 1 := rfl

/-- The last element of a list is an element of it. -/
theorem mem_of_getLast?_eq {α : Type} {l : List α} {a : α}
    (h : l.getLast? = some a) : a ∈ l := by
  have h2 := @List.dropLast_append_getLast? _ l a (by simp [Option.mem_def, h])
  rw [← h2]
  exact List.mem_append_right _ (List.mem_singleton_self a)

/-- Invariant preservation for the state shape that installs a fresh-id
operation as a room's current operation and bumps the id generator (the
`startDraw` shape and the `addPoint` fallback shape). -/
theorem Inv_newCur (s : ServerState) (g : List Nat) (r : String)
    (st' : RoomState) (op : DrawingOperation)
    (hops : st'.operations = (s.rooms r).operations)
    (hund : st'.undoStack = (s.rooms r).undoStack)
    (hcur : st'.currentOperation = some op)
    (hid : op.id = s.nextId)
    (hI : Inv s g) : Inv ((s.setRoom r st').fresh) g := by
  refine ⟨?_, ?_, ?_, ?_, ?_, ?_⟩
  · intro i hi
    simp only [nextId_fresh, nextId_setRoom]
    exact Nat.lt_succ_of_lt (hI.ghost_lt i hi)
  · intro r2 op2 hop2
    simp only [rooms_fresh, rooms_setRoom] at hop2
    by_cases h2 : r2 = r
    · rw [if_pos h2, hops] at hop2
      exact hI.ops_ghost r op2 hop2
    · rw [if_neg h2] at hop2
      exact hI.ops_ghost r2 op2 hop2
  · intro r2 op2 hop2
    simp only [rooms_fresh, rooms_setRoom] at hop2
    by_cases h2 : r2 = r
    · rw [if_pos h2, hund] at hop2
      exact hI.undo_ghost r op2 hop2
    · rw [if_neg h2] at hop2
      exact hI.undo_ghost r2 op2 hop2
  · intro r2 cur2 h2c
    simp only [rooms_fresh, rooms_setRoom] at h2c
    simp only [nextId_fresh, nextId_setRoom]
    by_cases h2 : r2 = r
    · rw [if_pos h2, hcur] at h2c
      injection h2c with hc2
      rw [← hc2, hid]
      exact Nat.lt_succ_self _
    · rw [if_neg h2] at h2c
      exact Nat.lt_succ_of_lt (hI.cur_lt r2 cur2 h2c)
  · intro r2 cur2 h2c hmem
    simp only [rooms_fresh, rooms_setRoom] at h2c
    by_cases h2 : r2 = r
    · rw [if_pos h2, hcur] at h2c
      injection h2c with hc2
      have hlt := hI.ghost_lt cur2.id hmem
      rw [← hc2, hid] at hlt
      exact absurd hlt (lt_irrefl _)
    · rw [if_neg h2] at h2c
      exact hI.cur_ghost r2 cur2 h2c hmem
  · intro r1 r2 c1 c2 h1 h2 hid12
    simp only [rooms_fresh, rooms_setRoom] at h1 h2
    by_cases e1 : r1 = r <;> by_cases e2 : r2 = r
    · rw [e1, e2]
    · rw [if_pos e1, hcur] at h1
      injection h1 with hc1
      rw [if_neg e2] at h2
      have hlt := hI.cur_lt r2 c2 h2
      rw [← hid12, ← hc1, hid] at hlt
      exact absurd hlt (lt_irrefl _)
    · rw [if_pos e2, hcur] at h2
      injection h2 with hc2
      rw [if_neg e1] at h1
      have hlt := hI.cur_lt r1 c1 h1
      rw [hid12, ← hc2, hid] at hlt
      exact absurd hlt (lt_irrefl _)
    · rw [if_neg e1] at h1
      rw [if_neg e2] at h2
      exact hI.cur_inj r1 r2 c1 c2 h1 h2 hid12

/-- Invariant preservation for the state shape that replaces a room's
current operation by one with the same id (the `addPoint` extend shape). -/
theorem Inv_extendCur (s : ServerState) (g : List Nat) (r : String)
    (st' : RoomState) (cur cur' : DrawingOperation)
    (hops : st'.operations = (s.rooms r).operations)
    (hund : st'.undoStack = (s.rooms r).undoStack)
    (hcur' : st'.currentOperation = some cur')
    (hc : (s.rooms r).currentOperation = some cur)
    (hid : cur'.id = cur.id)
    (hI : Inv s g) : Inv (s.setRoom r st') g := by
  refine ⟨?_, ?_, ?_, ?_, ?_, ?_⟩
  · intro i hi
    simpa only [nextId_setRoom] using hI.ghost_lt i hi
  · intro r2 op2 hop2
    simp only [rooms_setRoom] at hop2
    by_cases h2 : r2 = r
    · rw [if_pos h2, hops] at hop2
      exact hI.ops_ghost r op2 hop2
    · rw [if_neg h2] at hop2
      exact hI.ops_ghost r2 op2 hop2
  · intro r2 op2 hop2
    simp only [rooms_setRoom] at hop2
    by_cases h2 : r2 = r
    · rw [if_pos h2, hund] at hop2
      exact hI.undo_ghost r op2 hop2
    · rw [if_neg h2] at hop2
      exact hI.undo_ghost r2 op2 hop2
  · intro r2 cur2 h2c
    simp only [rooms_setRoom] at h2c
    simp only [nextId_setRoom]
    by_cases h2 : r2 = r
    · rw [if_pos h2, hcur'] at h2c
      injection h2c with hc2
      rw [← hc2, hid]
      exact hI.cur_lt r cur hc
    · rw [if_neg h2] at h2c
      exact hI.cur_lt r2 cur2 h2c
  · intro r2 cur2 h2c hmem
    simp only [rooms_setRoom] at h2c
    by_cases h2 : r2 = r
    · rw [if_pos h2, hcur'] at h2c
      injection h2c with hc2
      rw [← hc2, hid] at hmem
      exact hI.cur_ghost r cur hc hmem
    · rw [if_neg h2] at h2c
      exact hI.cur_ghost r2 cur2 h2c hmem
  · intro r1 r2 c1 c2 h1 h2 hid12
    simp only [rooms_setRoom] at h1 h2
    by_cases e1 : r1 = r <;> by_cases e2 : r2 = r
    · rw [e1, e2]
    · rw [if_pos e1, hcur'] at h1
      injection h1 with hc1
      rw [if_neg e2] at h2
      have hcc : c2.id = cur.id := by rw [← hid12, ← hc1, hid]
      have := hI.cur_inj r2 r c2 cur h2 hc hcc
      exact absurd this e2
    · rw [if_pos e2, hcur'] at h2
      injection h2 with hc2
      rw [if_neg e1] at h1
      have hcc : c1.id = cur.id := by rw [hid12, ← hc2, hid]
      have := hI.cur_inj r1 r c1 cur h1 hc hcc
      exact absurd this e1
    · rw [if_neg e1] at h1
      rw [if_neg e2] at h2
      exact hI.cur_inj r1 r2 c1 c2 h1 h2 hid12

/-- Invariant preservation for the commit shape (`endDraw` success): the
room's current operation moves to the end of the committed log and its id
joins the ghost list. -/
theorem Inv_commit (s : ServerState) (g : List Nat) (r : String)
    (st' : RoomState) (cur : DrawingOperation)
    (hc : (s.rooms r).currentOperation = some cur)
    (hops : st'.operations = (s.rooms r).operations ++ [cur])
    (hund : st'.undoStack = (s.rooms r).undoStack)
    (hcur : st'.currentOperation = none)
    (hI : Inv s g) : Inv (s.setRoom r st') (g ++ [cur.id]) := by
  refine ⟨?_, ?_, ?_, ?_, ?_, ?_⟩
  · intro i hi
    simp only [nextId_setRoom]
    rcases List.mem_append.mp hi with h3 | h3
    · exact hI.ghost_lt i h3
    · rw [List.mem_singleton] at h3
      rw [h3]
      exact hI.cur_lt r cur hc
  · intro r2 op2 hop2
    simp only [rooms_setRoom] at hop2
    by_cases h2 : r2 = r
    · rw [if_pos h2, hops] at hop2
      rcases List.mem_append.mp hop2 with h3 | h3
      · exact List.mem_append_left _ (hI.ops_ghost r op2 h3)
      · rw [List.mem_singleton] at h3
        rw [h3]
        exact List.mem_append_right _ (List.mem_singleton_self _)
    · rw [if_neg h2] at hop2
      exact List.mem_append_left _ (hI.ops_ghost r2 op2 hop2)
  · intro r2 op2 hop2
    simp only [rooms_setRoom] at hop2
    by_cases h2 : r2 = r
    · rw [if_pos h2, hund] at hop2
      exact List.mem_append_left _ (hI.undo_ghost r op2 hop2)
    · rw [if_neg h2] at hop2
      exact List.mem_append_left _ (hI.undo_ghost r2 op2 hop2)
  · intro r2 cur2 h2c
    simp only [rooms_setRoom] at h2c
    simp only [nextId_setRoom]
    by_cases h2 : r2 = r
    · rw [if_pos h2, hcur] at h2c
      exact absurd h2c (Option.noConfusion)
    · rw [if_neg h2] at h2c
      exact hI.cur_lt r2 cur2 h2c
  · intro r2 cur2 h2c hmem
    simp only [rooms_setRoom] at h2c
    by_cases h2 : r2 = r
    · rw [if_pos h2, hcur] at h2c
      exact Option.noConfusion h2c
    · rw [if_neg h2] at h2c
      rcases List.mem_append.mp hmem with h3 | h3
      · exact hI.cur_ghost r2 cur2 h2c h3
      · rw [List.mem_singleton] at h3
        have := hI.cur_inj r2 r cur2 cur h2c hc h3
        exact h2 this
  · intro r1 r2 c1 c2 h1 h2 hid12
    simp only [rooms_setRoom] at h1 h2
    by_cases e1 : r1 = r
    · rw [if_pos e1, hcur] at h1
      exact Option.noConfusion h1
    · by_cases e2 : r2 = r
      · rw [if_pos e2, hcur] at h2
        exact Option.noConfusion h2
      · rw [if_neg e1] at h1
        rw [if_neg e2] at h2
        exact hI.cur_inj r1 r2 c1 c2 h1 h2 hid12

/-- Invariant preservation for the shapes that only move operations between
a room's committed log and undo stack, leaving the current slot alone
(the `undo` and `redo` shapes). -/
theorem Inv_moveStacks (s : ServerState) (g : List Nat) (r : String)
    (st' : RoomState)
    (hops : ∀ op ∈ st'.operations,
      op ∈ (s.rooms r).operations ∨ op ∈ (s.rooms r).undoStack)
    (hund : ∀ op ∈ st'.undoStack,
      op ∈ (s.rooms r).operations ∨ op ∈ (s.rooms r).undoStack)
    (hcur : st'.currentOperation = (s.rooms r).currentOperation)
    (hI : Inv s g) : Inv (s.setRoom r st') g := by
  have hcur2 : ∀ r2, ((s.setRoom r st').rooms r2).currentOperation
      = (s.rooms r2).currentOperation := by
    intro r2
    by_cases h2 : r2 = r
    · rw [rooms_setRoom, if_pos h2, hcur, h2]
    · rw [rooms_setRoom, if_neg h2]
  refine ⟨?_, ?_, ?_, ?_, ?_, ?_⟩
  · intro i hi
    simpa only [nextId_setRoom] using hI.ghost_lt i hi
  · intro r2 op2 hop2
    simp only [rooms_setRoom] at hop2
    by_cases h2 : r2 = r
    · rw [if_pos h2] at hop2
      rcases hops op2 hop2 with h3 | h3
      · exact hI.ops_ghost r op2 h3
      · exact hI.undo_ghost r op2 h3
    · rw [if_neg h2] at hop2
      exact hI.ops_ghost r2 op2 hop2
  · intro r2 op2 hop2
    simp only [rooms_setRoom] at hop2
    by_cases h2 : r2 = r
    · rw [if_pos h2] at hop2
      rcases hund op2 hop2 with h3 | h3
      · exact hI.ops_ghost r op2 h3
      · exact hI.undo_ghost r op2 h3
    · rw [if_neg h2] at hop2
      exact hI.undo_ghost r2 op2 hop2
  · intro r2 cur2 h2c
    rw [hcur2] at h2c
    simpa only [nextId_setRoom] using hI.cur_lt r2 cur2 h2c
  · intro r2 cur2 h2c
    rw [hcur2] at h2c
    exact hI.cur_ghost r2 cur2 h2c
  · intro r1 r2 c1 c2 h1 h2 hid12
    rw [hcur2] at h1
    rw [hcur2] at h2
    exact hI.cur_inj r1 r2 c1 c2 h1 h2 hid12

/-- Invariant preservation for resetting one room (`clear`). -/
theorem Inv_clearRoom (s : ServerState) (g : List Nat) (r : String)
    (hI : Inv s g) : Inv (s.setRoom r RoomState.empty) g := by
  refine ⟨?_, ?_, ?_, ?_, ?_, ?_⟩
  · intro i hi
    simpa only [nextId_setRoom] using hI.ghost_lt i hi
  · intro r2 op2 hop2
    simp only [rooms_setRoom] at hop2
    by_cases h2 : r2 = r
    · rw [if_pos h2] at hop2
      simp [RoomState.empty] at hop2
    · rw [if_neg h2] at hop2
      exact hI.ops_ghost r2 op2 hop2
  · intro r2 op2 hop2
    simp only [rooms_setRoom] at hop2
    by_cases h2 : r2 = r
    · rw [if_pos h2] at hop2
      simp [RoomState.empty] at hop2
    · rw [if_neg h2] at hop2
      exact hI.undo_ghost r2 op2 hop2
  · intro r2 cur2 h2c
    simp only [rooms_setRoom] at h2c
    simp only [nextId_setRoom]
    by_cases h2 : r2 = r
    · rw [if_pos h2] at h2c
      simp [RoomState.empty] at h2c
    · rw [if_neg h2] at h2c
      exact hI.cur_lt r2 cur2 h2c
  · intro r2 cur2 h2c
    simp only [rooms_setRoom] at h2c
    by_cases h2 : r2 = r
    · rw [if_pos h2] at h2c
      simp [RoomState.empty] at h2c
    · rw [if_neg h2] at h2c
      exact hI.cur_ghost r2 cur2 h2c
  · intro r1 r2 c1 c2 h1 h2 hid12
    simp only [rooms_setRoom] at h1 h2
    by_cases e1 : r1 = r
    · rw [if_pos e1] at h1
      simp [RoomState.empty] at h1
    · by_cases e2 : r2 = r
      · rw [if_pos e2] at h2
        simp [RoomState.empty] at h2
      · rw [if_neg e1] at h1
        rw [if_neg e2] at h2
        exact hI.cur_inj r1 r2 c1 c2 h1 h2 hid12

/-- One instrumented step preserves the reachability invariant. -/
theorem Inv_step (p : ServerState × List Nat) (c : Cmd) (hp : Inv p.1 p.2) :
    Inv (stepG p c).1 (stepG p c).2 := by
  obtain ⟨s, g⟩ := p
  cases c with
  | startDraw r u d now =>
    exact Inv_newCur s g r _ _ rfl rfl rfl rfl hp
  | addPoint r u x y now =>
    rcases hc : (s.rooms r).currentOperation with _ | cur
    · simp only [stepG, addPoint, hc]
      exact Inv_newCur s g r _ _ rfl rfl rfl rfl hp
    · by_cases huu : cur.userId = u
      · simp only [stepG, addPoint, hc, if_pos huu]
        exact Inv_extendCur s g r _ cur _ rfl rfl rfl hc rfl hp
      · simp only [stepG, addPoint, hc, if_neg huu]
        exact Inv_newCur s g r _ _ rfl rfl rfl rfl hp
  | endDraw r u =>
    rcases hc : (s.rooms r).currentOperation with _ | cur
    · simp only [stepG, endDraw, hc]
      exact hp
    · by_cases huu : cur.userId = u
      · simp only [stepG, endDraw, hc, if_pos huu]
        exact Inv_commit s g r _ cur hc rfl rfl rfl hp
      · simp only [stepG, endDraw, hc, if_neg huu]
        exact hp
  | undo r =>
    rcases hg : (s.rooms r).operations.getLast? with _ | op
    · simp only [stepG, undo, hg]
      exact hp
    · simp only [stepG, undo, hg]
      refine Inv_moveStacks s g r _ ?_ ?_ rfl hp
      · intro op2 h2
        exact Or.inl (List.dropLast_subset _ h2)
      · intro op2 h2
        rcases List.mem_append.mp h2 with h3 | h3
        · exact Or.inr h3
        · rw [List.mem_singleton] at h3
          rw [h3]
          exact Or.inl (mem_of_getLast?_eq hg)
  | redo r =>
    rcases hg : (s.rooms r).undoStack.getLast? with _ | op
    · simp only [stepG, redo, hg]
      exact hp
    · simp only [stepG, redo, hg]
      refine Inv_moveStacks s g r _ ?_ ?_ rfl hp
      · intro op2 h2
        rcases List.mem_append.mp h2 with h3 | h3
        · exact Or.inl h3
        · rw [List.mem_singleton] at h3
          rw [h3]
          exact Or.inr (mem_of_getLast?_eq hg)
      · intro op2 h2
        exact Or.inr (List.dropLast_subset _ h2)
  | clear r =>
    simp only [stepG, clear]
    exact Inv_clearRoom s g r hp

/-- The reachability invariant holds initially. -/
theorem Inv_init : Inv ServerState.init [] := by
  refine ⟨?_, ?_, ?_, ?_, ?_, ?_⟩ <;>
    simp [ServerState.init, RoomState.empty]

/-- The reachability invariant holds after any trace. -/
theorem Inv_runG (trace : List Cmd) : Inv (runG trace).1 (runG trace).2 := by
  suffices h : ∀ p, Inv p.1 p.2 →
      Inv (trace.foldl stepG p).1 (trace.foldl stepG p).2 from
    h (ServerState.init, []) Inv_init
  induction trace with
  | nil => exact fun p hp => hp
  | cons c cs ih =>
    intro p hp
    exact ih (stepG p c) (Inv_step p c hp)

/-- C1: the claim says each user's committed stroke contains exactly the
points that user submitted, in order, under arbitrary interleaving, because
each user's in-progress operation lives in its own slot.  The source keeps a
single shared `currentOperation` slot per room, so user B's `startDraw`
overwrites user A's in-progress stroke: in the trace below, A submits (0,0)
then (1,1), yet A's committed stroke holds only [(1,1)] — the claim fails on
the code.  This theorem evaluates the code at that failing input. -/
theorem C1_shared_slot_drops_points :
    ((run [.startDraw "r" "A" { x := 0, y := 0, tool := "brush", color := "#000000", strokeWidth := 5 } 1,
           .startDraw "r" "B" { x := 5, y := 5, tool := "brush", color := "#000000", strokeWidth := 5 } 2,
           .addPoint "r" "A" 1 1 3,
           .endDraw "r" "A"]).rooms "r").operations.map
        (fun op => (op.userId, op.points)) = [("A", [{ x := 1, y := 1 }])] ∧
    [({ x := 1, y := 1 } : Point)] ≠ [{ x := 0, y := 0 }, { x := 1, y := 1 }] := by
  decide

/-- C2 counterexample: the claim says a second `startDraw` by a user who
already has an in-progress operation fails with `ConflictError` and leaves
the existing in-progress operation untouched.  In the code `startDraw` never
fails: at this concrete input the second call replaces the room's
`currentOperation` with a fresh one-point operation. -/
theorem C2_startDraw_replaces_cex :
    ((startDraw "r" "A" dB 11 (startDraw "r" "A" dA 10 ServerState.init).2).2.rooms "r").currentOperation
      ≠ ((startDraw "r" "A" dA 10 ServerState.init).2.rooms "r").currentOperation ∧
    ((startDraw "r" "A" dB 11 (startDraw "r" "A" dA 10 ServerState.init).2).2.rooms "r").currentOperation
      = some { id := 1, userId := "A", tool := "brush", color := "#000000",
               strokeWidth := 5, points := [{ x := 5, y := 5 }], timestamp := 11 } := by
  decide

/-- C2 as amended: `startDraw` for a user who already has the room's
in-progress operation does not fail: it replaces the room's
`currentOperation` with a fresh single-point operation (the prior in-progress
operation is discarded), leaving the committed log and the undo stack
unchanged. -/
theorem C2_startDraw_replaces (s : ServerState) (r u : String) (d : StartData)
    (now : Int) (cur : DrawingOperation)
    (hcur : (s.rooms r).currentOperation = some cur) (hu : cur.userId = u) :
    (startDraw r u d now s).1.id = s.nextId ∧
    (startDraw r u d now s).1.points = [{ x := d.x, y := d.y }] ∧
    (((startDraw r u d now s).2.rooms r).currentOperation
        = some (startDraw r u d now s).1) ∧
    ((startDraw r u d now s).2.rooms r).operations = (s.rooms r).operations ∧
    ((startDraw r u d now s).2.rooms r).undoStack = (s.rooms r).undoStack := by
  refine ⟨rfl, rfl, ?_, ?_, ?_⟩ <;>
    simp [startDraw, ServerState.setRoom, ServerState.fresh]

/-- Witness for C2: the amended theorem applied at a concrete state in which
user A already has an in-progress operation. -/
theorem C2_startDraw_replaces_witness :
    ((startDraw "q" "A" dB 11 (startDraw "q" "A" dA 10 ServerState.init).2).2.rooms "q").currentOperation
      = some (startDraw "q" "A" dB 11 (startDraw "q" "A" dA 10 ServerState.init).2).1 :=
  (C2_startDraw_replaces _ "q" "A" dB 11
    { id := 0, userId := "A", tool := "brush", color := "#000000",
      strokeWidth := 5, points := [{ x := 0, y := 0 }], timestamp := 10 }
    (by decide) (by decide)).2.2.1

/-- C3: the claim says that whenever any user's `endDraw` succeeds, the stack
redo pops from is empty immediately afterwards (a commit invalidates the redo
history).  In the code `redo` pops `undoStack`, but a new stroke only clears
the never-populated `redoStack` — contradicting the code's own comment
"Clear redo stack when starting a new operation".  At this failing input,
after B's successful commit the undone operation of A is still poppable:
`undoStack` still holds it and `redo` succeeds. -/
theorem C3_commit_leaves_undone :
    ((run [.startDraw "r" "A" { x := 0, y := 0, tool := "brush", color := "#000000", strokeWidth := 5 } 1,
           .endDraw "r" "A",
           .undo "r",
           .startDraw "r" "B" { x := 5, y := 5, tool := "brush", color := "#000000", strokeWidth := 5 } 2,
           .endDraw "r" "B"]).rooms "r").undoStack.map DrawingOperation.id = [0] ∧
    (redo "r" (run [.startDraw "r" "A" { x := 0, y := 0, tool := "brush", color := "#000000", strokeWidth := 5 } 1,
           .endDraw "r" "A",
           .undo "r",
           .startDraw "r" "B" { x := 5, y := 5, tool := "brush", color := "#000000", strokeWidth := 5 } 2,
           .endDraw "r" "B"])).1.isSome = true := by
  decide

/-- C4 counterexample: the claim says `addPoint` for a user with no
in-progress operation fails with `NotFoundError` and changes nothing.  In
the code it instead creates a fresh default-styled operation and installs it
as the room's current operation. -/
theorem C4_addPoint_creates_cex :
    ((addPoint "r" "A" 1 2 7 ServerState.init).2.rooms "r").currentOperation
        = some (fallbackOp "A" 1 2 7 0) ∧
    some (fallbackOp "A" 1 2 7 0) ≠ none := by
  decide

/-- C4 as amended: when the calling user has no in-progress operation (the
room's current operation is absent or belongs to another user), `addPoint`
does not fail: it creates a fresh in-progress operation with default tool
"brush", color "#000000", strokeWidth 5 and the single given point, and
installs it as the room's current operation; the committed log and both
stacks are unchanged. -/
theorem C4_addPoint_fallback (s : ServerState) (r u : String) (x y now : Int)
    (h : ∀ cur, (s.rooms r).currentOperation = some cur → cur.userId ≠ u) :
    (addPoint r u x y now s).1 = fallbackOp u x y now s.nextId ∧
    ((addPoint r u x y now s).2.rooms r).currentOperation
        = some (fallbackOp u x y now s.nextId) ∧
    ((addPoint r u x y now s).2.rooms r).operations = (s.rooms r).operations ∧
    ((addPoint r u x y now s).2.rooms r).undoStack = (s.rooms r).undoStack ∧
    ((addPoint r u x y now s).2.rooms r).redoStack = (s.rooms r).redoStack := by
  rcases hc : (s.rooms r).currentOperation with _ | cur
  · refine ⟨?_, ?_, ?_, ?_, ?_⟩ <;>
      simp [addPoint, hc, ServerState.setRoom, ServerState.fresh]
  · have hne : ¬ cur.userId = u := h cur hc
    refine ⟨?_, ?_, ?_, ?_, ?_⟩ <;>
      simp [addPoint, hc, hne, ServerState.setRoom, ServerState.fresh]

/-- Witness for C4: the amended theorem applied at the initial state, where
user A has no in-progress operation. -/
theorem C4_addPoint_fallback_witness :
    (addPoint "w" "A" 1 2 7 ServerState.init).1 = fallbackOp "A" 1 2 7 0 :=
  (C4_addPoint_fallback ServerState.init "w" "A" 1 2 7
    (fun cur hcur => by simp [ServerState.init, RoomState.empty] at hcur)).1

/-- C5 counterexample: the claim says the commit timestamp assigned by
`endDraw` is ≥ the last committed timestamp, bumping to the next integer if
wall-clock time would violate this.  The code samples `Date.now()` once at
`startDraw` and `endDraw` performs no adjustment: with a wall-clock
regression (10 then 5) the committed log's timestamps decrease. -/
theorem C5_timestamp_regression_cex :
    ((run [.startDraw "r" "A" { x := 0, y := 0, tool := "brush", color := "#000000", strokeWidth := 5 } 10,
           .endDraw "r" "A",
           .startDraw "r" "B" { x := 5, y := 5, tool := "brush", color := "#000000", strokeWidth := 5 } 5,
           .endDraw "r" "B"]).rooms "r").operations.map DrawingOperation.timestamp
        = [10, 5] ∧
    ¬ (10 ≤ (5 : Int)) := by
  decide

/-- C5 as amended: `endDraw` assigns no timestamp and performs no
monotonicity adjustment: the operation's timestamp is exactly the wall-clock
value sampled when the operation was created by `startDraw`, and a
successful `endDraw` appends the current operation to the committed log
unchanged, timestamp included. -/
theorem C5_timestamp_at_creation (s : ServerState) (r u : String)
    (d : StartData) (now : Int) (cur : DrawingOperation)
    (hcur : (s.rooms r).currentOperation = some cur) (hu : cur.userId = u) :
    (startDraw r u d now s).1.timestamp = now ∧
    (endDraw r u s).1 = some cur ∧
    ((endDraw r u s).2.rooms r).operations = (s.rooms r).operations ++ [cur] := by
  refine ⟨rfl, ?_, ?_⟩ <;> simp [endDraw, hcur, hu, ServerState.setRoom]

/-- Witness for C5: the amended theorem applied at a concrete state in which
user A has an in-progress operation created at time 10. -/
theorem C5_timestamp_at_creation_witness :
    ((endDraw "t" "A"
        (startDraw "t" "A" { x := 0, y := 0, tool := "brush", color := "#000000", strokeWidth := 5 } 10
          ServerState.init).2).2.rooms "t").operations
      = ((startDraw "t" "A" { x := 0, y := 0, tool := "brush", color := "#000000", strokeWidth := 5 } 10
          ServerState.init).2.rooms "t").operations ++
        [{ id := 0, userId := "A", tool := "brush", color := "#000000",
           strokeWidth := 5, points := [{ x := 0, y := 0 }], timestamp := 10 }] :=
  (C5_timestamp_at_creation _ "t" "A"
    { x := 0, y := 0, tool := "brush", color := "#000000", strokeWidth := 5 } 10
    { id := 0, userId := "A", tool := "brush", color := "#000000",
      strokeWidth := 5, points := [{ x := 0, y := 0 }], timestamp := 10 }
    (by decide) (by decide)).2.2

/-- C8 counterexample: the claim says an operation's id is assigned at
commit time (`endDraw`), not at `startDraw`.  In the code `startDraw`
already returns the operation carrying its id (the first generated id, 0),
and the operation later committed by `endDraw` carries that very id — the id
exists before any commit. -/
theorem C8_id_at_start_cex :
    (startDraw "r" "A" { x := 0, y := 0, tool := "brush", color := "#000000", strokeWidth := 5 } 10
        ServerState.init).1.id = 0 ∧
    ((run [.startDraw "r" "A" { x := 0, y := 0, tool := "brush", color := "#000000", strokeWidth := 5 } 10,
           .endDraw "r" "A"]).rooms "r").operations.map DrawingOperation.id = [0] := by
  decide

/-- C8 as amended: an operation's id is assigned at `startDraw` (a fresh id
from the generator) and is stable thereafter: `addPoint` extends the
operation without changing its id, and a successful `endDraw` commits the
operation with its id unchanged. -/
theorem C8_id_stable_from_start (s : ServerState) (r u : String)
    (d : StartData) (x y now : Int) (cur : DrawingOperation)
    (hcur : (s.rooms r).currentOperation = some cur) (hu : cur.userId = u) :
    (startDraw r u d now s).1.id = s.nextId ∧
    (addPoint r u x y now s).1.id = cur.id ∧
    (endDraw r u s).1 = some cur := by
  refine ⟨rfl, ?_, ?_⟩ <;> simp [addPoint, endDraw, hcur, hu]

/-- Witness for C8: the amended theorem applied at a concrete state in which
user A has an in-progress operation with id 0. -/
theorem C8_id_stable_from_start_witness :
    (addPoint "u" "A" 1 1 11
        (startDraw "u" "A" { x := 0, y := 0, tool := "brush", color := "#000000", strokeWidth := 5 } 10
          ServerState.init).2).1.id = 0 :=
  (C8_id_stable_from_start _ "u" "A"
    { x := 0, y := 0, tool := "brush", color := "#000000", strokeWidth := 5 } 1 1 11
    { id := 0, userId := "A", tool := "brush", color := "#000000",
      strokeWidth := 5, points := [{ x := 0, y := 0 }], timestamp := 10 }
    (by decide) (by decide)).2.1

/-- C6: on a room with a non-empty committed log and no in-progress activity
in between, `undo` then `redo` restores the committed log exactly (hence its
multiset of operation ids): `undo` removes the last committed entry and
pushes it onto the undone stack, `redo` pops it and appends it back at the
end of the committed log, and the undone stack also returns to its prior
value. -/
theorem C6_undo_redo_roundtrip (s : ServerState) (r : String)
    (h : (s.rooms r).operations ≠ []) :
    (redo r (undo r s).2).1 = (undo r s).1 ∧
    ((redo r (undo r s).2).2.rooms r).operations = (s.rooms r).operations ∧
    ((redo r (undo r s).2).2.rooms r).undoStack = (s.rooms r).undoStack := by
  rcases List.eq_nil_or_concat ((s.rooms r).operations) with h0 | ⟨L, b, hL⟩
  · exact absurd h0 h
  · refine ⟨?_, ?_, ?_⟩ <;>
      simp [undo, redo, hL, List.concat_eq_append, ServerState.setRoom]

/-- Witness for C6: the round-trip theorem applied to a concrete room with
one committed operation. -/
theorem C6_undo_redo_roundtrip_witness :
    ((redo "v" (undo "v" (run [.startDraw "v" "A" dA 1, .endDraw "v" "A"])).2).2.rooms "v").operations
      = ((run [.startDraw "v" "A" dA 1, .endDraw "v" "A"]).rooms "v").operations :=
  (C6_undo_redo_roundtrip (run [.startDraw "v" "A" dA 1, .endDraw "v" "A"]) "v"
    (by decide)).2.1

/-- C9: `clear` unconditionally resets the room — committed log, undone
stack, redo stack and the in-progress slot are all emptied — and `undo` on
the cleared room returns `null` and changes nothing. -/
theorem C9_clear_then_undo (s : ServerState) (r : String) :
    (clear r s).rooms r = RoomState.empty ∧
    undo r (clear r s) = (none, clear r s) := by
  constructor
  · simp [clear, ServerState.setRoom]
  · simp [undo, clear, ServerState.setRoom, RoomState.empty]

/-- C10: `undo` and `redo` on a room touch only that room's committed list
and undone stack: the room's in-progress slot and (unused) redo stack are
unchanged, the id generator is unchanged, and every other room's state is
untouched. -/
theorem C10_undo_redo_frame (s : ServerState) (r : String) :
    ((undo r s).2.rooms r).currentOperation = (s.rooms r).currentOperation ∧
    ((undo r s).2.rooms r).redoStack = (s.rooms r).redoStack ∧
    ((redo r s).2.rooms r).currentOperation = (s.rooms r).currentOperation ∧
    ((redo r s).2.rooms r).redoStack = (s.rooms r).redoStack ∧
    (undo r s).2.nextId = s.nextId ∧
    (redo r s).2.nextId = s.nextId ∧
    (∀ r2, r2 ≠ r → (undo r s).2.rooms r2 = s.rooms r2 ∧
                    (redo r s).2.rooms r2 = s.rooms r2) := by
  have hu : ∀ r2, r2 ≠ r → (undo r s).2.rooms r2 = s.rooms r2 := by
    intro r2 h2
    cases hg : (s.rooms r).operations.getLast? <;>
      simp [undo, hg, ServerState.setRoom, h2]
  have hr : ∀ r2, r2 ≠ r → (redo r s).2.rooms r2 = s.rooms r2 := by
    intro r2 h2
    cases hg : (s.rooms r).undoStack.getLast? <;>
      simp [redo, hg, ServerState.setRoom, h2]
  refine ⟨?_, ?_, ?_, ?_, ?_, ?_, fun r2 h2 => ⟨hu r2 h2, hr r2 h2⟩⟩
  · cases hg : (s.rooms r).operations.getLast? <;>
      simp [undo, hg, ServerState.setRoom]
  · cases hg : (s.rooms r).operations.getLast? <;>
      simp [undo, hg, ServerState.setRoom]
  · cases hg : (s.rooms r).undoStack.getLast? <;>
      simp [redo, hg, ServerState.setRoom]
  · cases hg : (s.rooms r).undoStack.getLast? <;>
      simp [redo, hg, ServerState.setRoom]
  · cases hg : (s.rooms r).operations.getLast? <;>
      simp [undo, hg, ServerState.setRoom]
  · cases hg : (s.rooms r).undoStack.getLast? <;>
      simp [redo, hg, ServerState.setRoom]

/-- Witness for C10: the frame theorem applied at a concrete state, showing
room "b" is untouched by an `undo` against room "a". -/
theorem C10_undo_redo_frame_witness :
    (undo "a" ServerState.init).2.rooms "b" = ServerState.init.rooms "b" :=
  ((C10_undo_redo_frame ServerState.init "a").2.2.2.2.2.2 "b" (by decide)).1

/-- C7: after any sequence of calls, `getState` returns exactly the room's
committed operations; every operation it returns was committed by some
successful `endDraw` (so an operation begun but never ended — e.g. its user
disconnected mid-stroke — never appears in the committed log or in any
snapshot); and a still-in-progress operation never appears in the
snapshot. -/
theorem C7_snapshot_committed_only (trace : List Cmd) (r : String) :
    getState r (run trace) = ((run trace).rooms r).operations ∧
    (∀ op ∈ getState r (run trace), op.id ∈ (runG trace).2) ∧
    (∀ cur, ((run trace).rooms r).currentOperation = some cur →
      ∀ op ∈ getState r (run trace), op.id ≠ cur.id) := by
  have hI := Inv_runG trace
  refine ⟨rfl, fun op hop => hI.ops_ghost r op hop,
    fun cur hcur op hop heq => ?_⟩
  exact hI.cur_ghost r cur hcur (heq ▸ hI.ops_ghost r op hop)

/-- Witness for C7: in a trace where A commits one stroke and B is still
mid-stroke, the snapshot theorem shows the committed operation's id is among
the committed ids. -/
theorem C7_snapshot_committed_only_witness :
    ({ id := 0, userId := "A", tool := "brush", color := "#000000",
       strokeWidth := 5, points := [{ x := 0, y := 0 }], timestamp := 1 }
        : DrawingOperation).id
      ∈ (runG [.startDraw "s" "A" dA 1, .endDraw "s" "A",
               .startDraw "s" "B" dB 2]).2 :=
  (C7_snapshot_committed_only
    [.startDraw "s" "A" dA 1, .endDraw "s" "A", .startDraw "s" "B" dB 2]
    "s").2.1 _ (by decide)

end DrawingCanvas
